import Mathlib

/-!
Verification development for the transitive-delegation credential system.

The Rust sources under `src/delegation` are shallowly embedded: machine
integers become `Nat` (timestamps are parsed as unsigned 128-bit decimals,
so parsing checks `n < 2 ^ 128`), fallible operations return
`Except String`, and a Rust panic (such as `Vec::remove` on an
out-of-bounds index) is modelled as an `Except` error.  The external
cryptographic crates (`ark`, `vb_accumulator`, `josekit`, `ed25519_dalek`)
are abstracted into explicit model records whose fields stand for the
library functions the code calls; serialized curve points, scalars and
witnesses are represented by their serialization strings.
-/

namespace Delegation

/-! ## Timing validator (`entities/verifier.rs`) -/

/-- Rust `u128::from_str`: an optional leading plus sign, then one or more
ASCII digits, and the value must fit in 128 bits; anything else fails. -/
def parse_u128 (s : String) : Option Nat :=
  let ds : List Char :=
    match s.data with
    | '+' :: rest => rest
    | cs => cs
  if ds.isEmpty then none
  else if ds.all Char.isDigit then
    let n := ds.foldl (fun acc c => acc * 10 + (c.toNat - 48)) 0
    if n < 2 ^ 128 then some n else none
  else none

def iatParseError (iat : String) : String :=
  "Could not parse timestamp iat " ++ iat

def expParseError (exp : String) : String :=
  "Could not parse timestamp exp " ++ exp

def notYetValidError (iat_ns : Nat) : String :=
  "Timestamp is less than issuance time " ++ toString iat_ns

def expiredError (exp_ns : Nat) : String :=
  "Timestamp is greater than expiration time " ++ toString exp_ns

def invertedError (iat_ns exp_ns : Nat) : String :=
  "Credential is issued after its expiration date " ++ toString iat_ns ++ " > " ++ toString exp_ns

/-- `verify_timings` from `entities/verifier.rs`: parse both timestamps,
then check the three conditions in an else-if cascade. -/
def verify_timings (now : Nat) (iat exp : String) : Except String Unit :=
  match parse_u128 iat with
  | none => .error (iatParseError iat)
  | some iat_ns =>
    match parse_u128 exp with
    | none => .error (expParseError exp)
    | some exp_ns =>
      if now < iat_ns then .error (notYetValidError iat_ns)
      else if exp_ns < now then .error (expiredError exp_ns)
      else if exp_ns < iat_ns then .error (invertedError iat_ns exp_ns)
      else .ok ()

/-! ## Accumulator verifier (`accumulators/accumulator_verifier.rs`) -/

/-- Abstract model of the external pairing library (`ark` / `vb_accumulator`):
deserialization checks and the membership pairing check, all over the
serialized string forms the Rust code passes around. -/
structure CryptoModel where
  deserScalar : String → Except String Unit
  deserWitness : String → Except String Unit
  deserAccumulator : String → Except String Unit
  verify_membership : String → String → String → String → String → Bool

structure AccumulatorVerifier where
  accumulator_value : String
  public_key : String
  setup_params : String

def AccumulatorVerifier.new (M : CryptoModel) (accumulator_value public_key setup_params : String) :
    Except String AccumulatorVerifier :=
  match M.deserAccumulator accumulator_value with
  | .error e => .error e
  | .ok _ => .ok ⟨accumulator_value, public_key, setup_params⟩

def verify_accumulator_witness (M : CryptoModel)
    (accumulator_value witness element public_key setup_params : String) :
    Except String Unit :=
  match M.deserScalar element with
  | .error e => .error e
  | .ok _ =>
    match M.deserWitness witness with
    | .error e => .error e
    | .ok _ =>
      if M.verify_membership accumulator_value element witness public_key setup_params then .ok ()
      else .error ("Could not verify membership for element " ++ element)

/-- The sequential branch: verify each (witness, element) pair in order,
stopping at the first error (the `?` operator in the Rust loop). -/
def seqVerifyPairs (M : CryptoModel) (av : AccumulatorVerifier) :
    List (String × String) → Except String Unit
  | [] => .ok ()
  | (w, e) :: rest =>
    match verify_accumulator_witness M av.accumulator_value w e av.public_key av.setup_params with
    | .error msg => .error msg
    | .ok _ => seqVerifyPairs M av rest

/-- `thread::spawn` + `JoinHandle::join` in a panic-free execution: the
worker closure runs to completion, so `join` returns `Ok` carrying the
worker result (the outer `.error` constructor would mean a panic and is
never produced here). -/
def threadJoin (r : Except String Unit) : Except Unit (Except String Unit) :=
  .ok r

/-- The collector loop of the parallel branch, exactly as in the source:
`Ok(_) => {}` discards the joined worker result (whether it was `Ok` or
`Err`), and only a panicked join aborts the batch. -/
def joinThreads : List (Except Unit (Except String Unit)) → Except String Unit
  | [] => .ok ()
  | .ok _ :: rest => joinThreads rest
  | .error _ :: _ => .error "Thread verifying witness panicked"

def AccumulatorVerifier.verify_accumulator_witnesses (M : CryptoModel) (av : AccumulatorVerifier)
    (witnesses elements : List String) (parallel : Bool) : Except String Unit :=
  if elements.length ≠ witnesses.length then
    .error ("Witnesses length does not match elements [" ++ toString elements.length ++ " - " ++
      toString witnesses.length ++ "]")
  else if parallel = false then
    seqVerifyPairs M av (witnesses.zip elements)
  else
    joinThreads ((witnesses.zip elements).map (fun p =>
      threadJoin (verify_accumulator_witness M av.accumulator_value p.1 p.2 av.public_key av.setup_params)))

/-- A concrete instantiation of the crypto model in which every string
deserializes and every membership check fails (e.g. a witness for a
different accumulator value). -/
def rejectingModel : CryptoModel :=
  { deserScalar := fun _ => .ok ()
    deserWitness := fun _ => .ok ()
    deserAccumulator := fun _ => .ok ()
    verify_membership := fun _ _ _ _ _ => false }

/-- A concrete instantiation of the crypto model in which every string
deserializes and every membership check succeeds. -/
def acceptingModel : CryptoModel :=
  { deserScalar := fun _ => .ok ()
    deserWitness := fun _ => .ok ()
    deserAccumulator := fun _ => .ok ()
    verify_membership := fun _ _ _ _ _ => true }

/-! ## Scheme A data model (`credentials/ours`) -/

structure OurDelegator where
  id : String
  delegatee_id : String
  iat : String
  exp : String
  accumulator_value : String
  metadata_witnesses : List String
  permission_witnesses : List String
deriving DecidableEq

structure OurDelegationCredential where
  delegatee_id : String
  accumulator_value : String
  iat : String
  exp : String
  permissions : List String
  metadata_witnesses : List String
  permission_witnesses : List String
  hierarchy : List OurDelegator
deriving DecidableEq

structure VerifiableCredential (C : Type) where
  context : List String
  credential_type : List String
  id : String
  issuer : String
  valid_from : String
  credential : C
deriving DecidableEq

structure VerifiablePresentation (C : Type) where
  context : List String
  credential_type : List String
  id : String
  issuer : String
  valid_from : String
  credential : C
deriving DecidableEq

/-- The view offered by the `OurDelegation` trait, implemented by both
`OurDelegationCredential` and `OurDelegator`. -/
structure OurDelegationData where
  delegatee_id : String
  accumulator_value : String
  iat : String
  exp : String
  metadata_witnesses : List String
  permission_witnesses : List String
deriving DecidableEq

def OurDelegator.asDelegation (d : OurDelegator) : OurDelegationData :=
  ⟨d.delegatee_id, d.accumulator_value, d.iat, d.exp, d.metadata_witnesses, d.permission_witnesses⟩

def OurDelegationCredential.asDelegation (dc : OurDelegationCredential) : OurDelegationData :=
  ⟨dc.delegatee_id, dc.accumulator_value, dc.iat, dc.exp, dc.metadata_witnesses, dc.permission_witnesses⟩

/-! ## Index-based removal (`retain_only` and the issuance pruning loop)

Both `OurDelegationCredential::retain_only` and the pruning step of
`issue_delegation_verifiable_credential` collect the indices of the
permissions that are not kept (in ascending order) and then call
`Vec::remove` on the reversed index list, in lock-step on the permissions,
the outer witnesses and the witnesses of every hierarchy entry.  `Vec::remove`
panics on an out-of-bounds index; the panic is modelled as an `Except`
error.  The source interleaves the per-list removals inside one loop over
the indices; since each list receives exactly the same index sequence, the
per-list results (and whether a panic occurs for a given list) are the
same, so the lists are processed one after the other here. -/

/-- Rust `Vec::remove`, with the out-of-bounds panic as an error. -/
def vecRemove {α : Type} (xs : List α) (i : Nat) : Except String (List α) :=
  if i < xs.length then .ok (xs.eraseIdx i) else .error "index out of bounds"

def removeAll {α : Type} : List Nat → List α → Except String (List α)
  | [], xs => .ok xs
  | i :: rest, xs =>
    match vecRemove xs i with
    | .error e => .error e
    | .ok ys => removeAll rest ys

/-- The `enumerate` loop collecting (in ascending order) the indices of the
entries of the list that are not contained in `allowed`. -/
def removableIndicesFrom (allowed : List String) : Nat → List String → List Nat
  | _, [] => []
  | i, p :: rest =>
    if allowed.contains p then removableIndicesFrom allowed (i + 1) rest
    else i :: removableIndicesFrom allowed (i + 1) rest

/-- Apply the (reversed) removal index list to the permission witnesses of
every delegator in a hierarchy. -/
def pruneHierarchy (rev : List Nat) : List OurDelegator → Except String (List OurDelegator)
  | [] => .ok []
  | d :: rest =>
    match removeAll rev d.permission_witnesses with
    | .error e => .error e
    | .ok w =>
      match pruneHierarchy rev rest with
      | .error e => .error e
      | .ok ds => .ok ({ d with permission_witnesses := w } :: ds)

/-- `OurDelegationCredential::retain_only`: drop every permission not in
`allowed`, and in index lock-step the outer witness and every hierarchy
entry witness; return the updated credential and the removed indices. -/
def OurDelegationCredential.retain_only (dc : OurDelegationCredential) (allowed : List String) :
    Except String (OurDelegationCredential × List Nat) :=
  let removable_indices := removableIndicesFrom allowed 0 dc.permissions
  let rev := removable_indices.reverse
  match removeAll rev dc.permissions with
  | .error e => .error e
  | .ok perms =>
    match removeAll rev dc.permission_witnesses with
    | .error e => .error e
    | .ok pw =>
      match pruneHierarchy rev dc.hierarchy with
      | .error e => .error e
      | .ok hier =>
        .ok ({ dc with permissions := perms, permission_witnesses := pw, hierarchy := hier },
          removable_indices)

/-! ## Accumulator state and manager (`accumulators/accumulator_manager.rs`) -/

/-- Modelled from the spec: the file `in_memory_state.rs` that the manager
imports is not under `src/`.  Spec section 4.2 describes an exact multiset
of accumulated scalars with `has`, `add` (fails when already present) and
`remove` (fails when absent).  A scalar is represented by its canonical
serialization string; the multiset is kept as a list. -/
structure InMemoryState where
  elems : List String
deriving DecidableEq

def InMemoryState.has (st : InMemoryState) (x : String) : Bool :=
  st.elems.contains x

def InMemoryState.add (st : InMemoryState) (x : String) : InMemoryState :=
  ⟨st.elems ++ [x]⟩

/-- The manager owns the accumulator and its state.  The accumulator value
is a deterministic function (keyed by the secret key) of the sequence of
accepted additions; it is abstracted as that sequence. -/
structure AccumulatorManager where
  accumulator : List String
  state : InMemoryState
deriving DecidableEq

def AccumulatorManager.new : AccumulatorManager := ⟨[], ⟨[]⟩⟩

/-- Modelled from the spec: `PositiveAccumulator::add` of the external
`vb_accumulator` crate; spec section 3 — an element cannot be added twice. -/
def AccumulatorManager.add_element (am : AccumulatorManager) (x : String) :
    AccumulatorManager × Except String Unit :=
  if am.state.has x then
    (am, .error "Error in adding single element: [element is already present]")
  else
    (⟨am.accumulator ++ [x], am.state.add x⟩, .ok ())

/-- Modelled from the spec: `PositiveAccumulator::add_batch` of the external
`vb_accumulator` crate; spec sections 3 and 4.3 — the batch is atomic: on
any duplicate no elements are added, otherwise all are added. -/
def AccumulatorManager.add_elements (am : AccumulatorManager) (xs : List String) :
    AccumulatorManager × Except String Unit :=
  if xs.any am.state.has then
    (am, .error "Error in adding batch elements: [element is already present]")
  else
    (⟨am.accumulator ++ xs, ⟨am.state.elems ++ xs⟩⟩, .ok ())

/-! ## Scheme A issuer (`entities/ours/our_issuer.rs`) -/

/-- Abstract model of the key-dependent crypto of one issuer: the hash-to-scalar
map, the serialization of the accumulator value, and witness computation
(both deterministic functions of the secret key, which is fixed per
issuer). -/
structure IssuerModel where
  toScalar : String → String
  serializeAcc : List String → String
  witnessOf : List String → String → String

def AccumulatorManager.clone_accumulator (M : IssuerModel) (am : AccumulatorManager) : String :=
  M.serializeAcc am.accumulator

def AccumulatorManager.compute_witness (M : IssuerModel) (am : AccumulatorManager) (x : String) :
    String :=
  M.witnessOf am.accumulator x

/-- The `// Set exp to the lowest expiration value in hierarchy` loop:
parse each hierarchy entry expiry and keep the minimum. -/
def clampExpOverHierarchy : Nat → List OurDelegator → Except String Nat
  | e, [] => .ok e
  | e, d :: rest =>
    match parse_u128 d.exp with
    | none => .error ("Could not parse delegator exp " ++ d.exp)
    | some de => clampExpOverHierarchy (if de < e then de else e) rest

/-- The pruning step of issuance: when strictly fewer permissions are
requested, drop the indices of the issuer permissions not requested from
the issuer permissions, the issuer witnesses, and every hierarchy entry. -/
def pruneParent (permissions issuer_permissions issuer_permission_witnesses : List String)
    (issuer_hierarchy : List OurDelegator) :
    Except String (List String × List String × List OurDelegator) :=
  if permissions.length < issuer_permissions.length then
    let rev := (removableIndicesFrom permissions 0 issuer_permissions).reverse
    match removeAll rev issuer_permissions with
    | .error e => .error e
    | .ok ps =>
      match removeAll rev issuer_permission_witnesses with
      | .error e => .error e
      | .ok ws =>
        match pruneHierarchy rev issuer_hierarchy with
        | .error e => .error e
        | .ok hs => .ok (ps, ws, hs)
  else .ok (issuer_permissions, issuer_permission_witnesses, issuer_hierarchy)

/-- `OurIssuer::issue_delegation_verifiable_credential`.  `now_ns` stands
for the system clock reading and `validity_period_ns` for
`validity_period.as_nanos()`. -/
def issue_delegation_verifiable_credential (M : IssuerModel) (self_id : String) (now_ns : Nat)
    (context : List String) (credential_id valid_from delegatee_id : String)
    (validity_period_ns : Nat) (permissions : List String)
    (optional_issuer_vc : Option (VerifiableCredential OurDelegationCredential)) :
    Except String (VerifiableCredential OurDelegationCredential) :=
  let issuer := self_id
  if permissions.isEmpty then .error "Permissions array is empty"
  else
    let numeric_iat := now_ns
    let iat := toString numeric_iat
    match (match optional_issuer_vc with
           | none => Except.ok (numeric_iat + validity_period_ns)
           | some vc => clampExpOverHierarchy (numeric_iat + validity_period_ns)
               vc.credential.hierarchy) with
    | .error e => .error e
    | .ok numeric_exp =>
      let exp := toString numeric_exp
      let permission_scalars := permissions.map M.toScalar
      let delegatee_id_scalar := M.toScalar delegatee_id
      let iat_scalar := M.toScalar iat
      let exp_scalar := M.toScalar exp
      match AccumulatorManager.new.add_elements permission_scalars with
      | (_, .error e) => .error e
      | (am1, .ok _) =>
        match am1.add_element delegatee_id_scalar with
        | (_, .error e) => .error e
        | (am2, .ok _) =>
          match am2.add_element iat_scalar with
          | (_, .error e) => .error e
          | (am3, .ok _) =>
            match am3.add_element exp_scalar with
            | (_, .error e) => .error e
            | (am4, .ok _) =>
              let accumulator_value := am4.clone_accumulator M
              let metadata_witnesses := [am4.compute_witness M delegatee_id_scalar,
                am4.compute_witness M iat_scalar, am4.compute_witness M exp_scalar]
              let permission_witnesses := permission_scalars.map (am4.compute_witness M)
              match optional_issuer_vc with
              | none =>
                let dc : OurDelegationCredential := ⟨delegatee_id, accumulator_value, iat, exp,
                  permissions, metadata_witnesses, permission_witnesses, []⟩
                .ok ⟨context, ["OurDelegationCredential"], credential_id, issuer, valid_from, dc⟩
              | some issuer_vc =>
                let issuer_dc := issuer_vc.credential
                let issuer_permissions := issuer_dc.permissions
                let issuer_permission_witnesses := issuer_dc.permission_witnesses
                match permissions.find? (fun p => !(issuer_permissions.contains p)) with
                | some permission =>
                  .error ("Permission " ++ permission ++
                    " cannot be granted since it was not included in the previous Delegation Credential")
                | none =>
                  let issuer_hierarchy := issuer_dc.hierarchy
                  let issuer_permissions_size := issuer_permissions.length
                  let permissions_size := permissions.length
                  if issuer_permissions_size ≠ issuer_permission_witnesses.length then
                    .error ("Witnesses and permissions have different cardinality [" ++
                      toString issuer_permissions_size ++ " - " ++
                      toString issuer_permission_witnesses.length ++ "]")
                  else if issuer_hierarchy.any
                      (fun d => d.permission_witnesses.length != issuer_permissions_size) then
                    .error "Delegation Credential is not well formatted: delegator contains more witnesses than the permits the credential grants"
                  else if issuer_permissions_size < permissions_size then
                    .error ("Cannot grant more permissions than those included in the previous Delegation Credential [" ++
                      toString permissions_size ++ " < " ++ toString issuer_permissions_size ++ "]")
                  else
                    match pruneParent permissions issuer_permissions issuer_permission_witnesses
                        issuer_hierarchy with
                    | .error e => .error e
                    | .ok (_ps, ws, hier) =>
                      let issuer_delegator : OurDelegator := ⟨issuer_vc.issuer,
                        issuer_dc.delegatee_id, issuer_dc.iat, issuer_dc.exp,
                        issuer_dc.accumulator_value, issuer_dc.metadata_witnesses, ws⟩
                      let result_dc : OurDelegationCredential := ⟨delegatee_id, accumulator_value,
                        iat, exp, permissions, metadata_witnesses, permission_witnesses,
                        hier ++ [issuer_delegator]⟩
                      .ok ⟨context, ["OurDelegationCredential"], credential_id, issuer,
                        valid_from, result_dc⟩

/-! ## Scheme A verifier (`entities/ours/our_verifier.rs`) -/

/-- An entry of the accumulator key directory (`dlt_acc_entry.rs`). -/
structure DLTSimAccEntry where
  public_key : String
  setup_params : String
deriving DecidableEq

/-- The verifier environment: the crypto model and the accumulator key
directory (the `DLTSim` map from delegator id to published entry). -/
structure OurVerifierModel where
  crypto : CryptoModel
  accumulator_dlt : String → Option DLTSimAccEntry

/-- `OurVerifier::verify_delegation`: timings, directory lookup of the
`issuer` argument, then both witness batches against the accumulator value of the
delegation. -/
def verify_delegation (V : OurVerifierModel) (d : OurDelegationData) (issuer : String)
    (permissions : List String) (now_ns : Nat) (parallel : Bool) : Except String Unit :=
  match verify_timings now_ns d.iat d.exp with
  | .error e => .error e
  | .ok _ =>
    match V.accumulator_dlt issuer with
    | none => .error ("Could not find issuer " ++ issuer ++ " in DLTSim")
    | some entry =>
      match AccumulatorVerifier.new V.crypto d.accumulator_value entry.public_key
          entry.setup_params with
      | .error e => .error e
      | .ok av =>
        match av.verify_accumulator_witnesses V.crypto d.metadata_witnesses
            [d.delegatee_id, d.iat, d.exp] parallel with
        | .error e => .error e
        | .ok _ =>
          av.verify_accumulator_witnesses V.crypto d.permission_witnesses permissions parallel

def chainBrokenError (previous current : String) : String :=
  "Previous delegator " ++ previous ++ " does not match current delegatee " ++ current

/-- The hierarchy loop of `verify_verifiable_presentation`, already applied
to the reversed hierarchy (the source iterates `hierarchy.iter().rev()`):
check the delegatee link, verify the delegation passing `previous` (the
delegatee id) as the issuer to look up, and continue with the delegator id
as the new current issuer.  Returns the final current issuer. -/
def walkHierarchy (V : OurVerifierModel) (permissions : List String) (now_ns : Nat)
    (parallel : Bool) : String → List OurDelegator → Except String String
  | current, [] => .ok current
  | current, delegator :: rest =>
    let previous := delegator.delegatee_id
    if previous ≠ current then .error (chainBrokenError previous current)
    else
      match verify_delegation V delegator.asDelegation previous permissions now_ns parallel with
      | .error e => .error e
      | .ok _ => walkHierarchy V permissions now_ns parallel delegator.id rest

/-- `OurVerifier::verify_verifiable_presentation`, after the JWS envelope
has been decoded to `vp` (the directory lookup of the presenter key and the
EdDSA envelope check are upstream of the hierarchy logic modelled here);
`now_ns` stands for the system clock reading. -/
def verify_verifiable_presentation (V : OurVerifierModel)
    (vp : VerifiablePresentation OurDelegationCredential) (now_ns : Nat) (parallel : Bool) :
    Except String Unit :=
  let dc := vp.credential
  let permissions := dc.permissions
  match walkHierarchy V permissions now_ns parallel vp.issuer dc.hierarchy.reverse with
  | .error e => .error e
  | .ok _ => verify_delegation V dc.asDelegation vp.issuer permissions now_ns parallel

/-- The chain-consistency predicate of the walk: starting from the
expected issuer, the delegatee of each delegator must equal the expected
issuer, which then becomes the id of that delegator. -/
def chainLinked : String → List OurDelegator → Bool
  | _, [] => true
  | current, d :: rest => d.delegatee_id == current && chainLinked d.id rest

/-! ## Compact JWS envelope (`credentials/verifiable_presentation.rs`) -/

/-- A JOSE key as the source uses it: an OKP JWK with curve, public
parameter `x`, optional private parameter `d`, and (abstractly) the raw
signing function its private key induces. -/
structure Jwk where
  kty : String
  crv : String
  x : Option String
  d : Option String
  rawSign : String → String

structure JwsSigner where
  algName : String
  sign : String → String

/-- Modelled from the spec: `EdDSA.signer_from_jwk` of the external
`josekit` crate accepts an OKP JWK on curve Ed25519 carrying the private
parameter `d`; the algorithm name of the resulting signer is "EdDSA". -/
def eddsaSignerFromJwk (jwk : Jwk) : Except String JwsSigner :=
  if jwk.kty = "OKP" ∧ jwk.crv = "Ed25519" ∧ jwk.d ≠ none then
    .ok ⟨"EdDSA", jwk.rawSign⟩
  else .error "key is not an Ed25519 OKP private key"

/-- A compact JWS: protected header claims, payload, signature. -/
structure CompactJws where
  header : List (String × String)
  payload : String
  signature : String

/-- Map-insert on a claim list: replaces any existing binding of the key. -/
def insertClaim (claims : List (String × String)) (k v : String) : List (String × String) :=
  claims.filter (fun kv => kv.1 ≠ k) ++ [(k, v)]

def lookupClaim (claims : List (String × String)) (k : String) : Option String :=
  (claims.find? (fun kv => kv.1 = k)).map (fun kv => kv.2)

/-- Modelled from the spec: `jwt::encode_with_signer` of the external
`josekit` crate inserts the `alg` header claim from the algorithm name of the signer before serializing (spec section 9: the wire-effective algorithm is
EdDSA), then signs the serialized input. -/
def encode_with_signer (payload : String) (header : List (String × String)) (signer : JwsSigner) :
    CompactJws :=
  ⟨insertClaim header "alg" signer.algName, payload, signer.sign payload⟩

/-- `VerifiablePresentation::to_signed_jwt`: serialize the presentation
(abstracted as the total function `serializeVp`), build a header with
`set_algorithm("P256")`, create an EdDSA signer from the private JWK, and
encode. -/
def VerifiablePresentation.to_signed_jwt
    (serializeVp : VerifiablePresentation OurDelegationCredential → String)
    (vp : VerifiablePresentation OurDelegationCredential) (private_key : Jwk) :
    Except String CompactJws :=
  let header : List (String × String) := [("alg", "P256")]
  match eddsaSignerFromJwk private_key with
  | .error e => .error ("Failed to create signer: [" ++ e ++ "]")
  | .ok signer => .ok (encode_with_signer (serializeVp vp) header signer)

/-! ## Scheme B (`pjv`) data model and verifier -/

structure PJVDelegator where
  owner : String
  iss : String
  sub : String
  iat : String
  exp : String
  resource_uri : String
  operations : List String
  hierarchy : String
deriving DecidableEq

structure PJVSignature where
  signature : String
deriving DecidableEq

structure PJVDelegationCredential where
  delegator : PJVDelegator
  signature : PJVSignature
deriving DecidableEq

/-- The environment of `PJVIssuerVerifier` acting as verifier: the
signature-key directory, canonical serialization of a delegator, base64url
decoding, the EdDSA check, JWE decryption under the own X25519 key
of this verifier, and JSON parsing of a decrypted credential. -/
structure PJVModel where
  verification_dlt : String → Option Jwk
  serializeDelegator : PJVDelegator → String
  decodeB64 : String → Except String String
  verifySig : Jwk → String → String → Bool
  decryptJwe : String → Except String String
  parseDC : String → Except String PJVDelegationCredential

/-- `PJVIssuerVerifier::verify_signature`: look up the published
verification key of the issuer, serialize the delegator, base64url-decode the signature
and check it (the `verifier_from_jwk` construction is folded into
`verifySig`). -/
def pjvVerifySignature (M : PJVModel) (delegator : PJVDelegator) (signature : PJVSignature) :
    Except String Unit :=
  let issuer := delegator.iss
  match M.verification_dlt issuer with
  | none => .error ("Issuer " ++ issuer ++ " not found in the verification DLT")
  | some jwk =>
    let serialized_delegator := M.serializeDelegator delegator
    match M.decodeB64 signature.signature with
    | .error e => .error ("Decoding of signature failed [" ++ e ++ "]")
    | .ok decoded_signature =>
      if M.verifySig jwk serialized_delegator decoded_signature then .ok ()
      else .error "Failed to verify delegator"

def invalidRootError (self_id owner issuer : String) : String :=
  "Hierarchy is empty but (" ++ self_id ++ " != " ++ owner ++ ") or (" ++ self_id ++ " != " ++
    issuer ++ ")"

/-- `PJVIssuerVerifier::verify_delegation_credential`.  The source recurses
on each decrypted parent; the recursion is made total here with a `fuel`
bound consumed only at the recursive call (spec section 9 notes that a
depth bound must be enforced).  The root branch (`hierarchy == ""`) never
consumes fuel. -/
def pjvVerifyDelegationCredential (M : PJVModel) (self_id : String) (now : Nat) :
    Nat → PJVDelegationCredential → Except String PJVDelegator
  | fuel, dc =>
    let delegator := dc.delegator
    let owner := delegator.owner
    let issuer := delegator.iss
    match verify_timings now delegator.iat delegator.exp with
    | .error e => .error e
    | .ok _ =>
      match pjvVerifySignature M delegator dc.signature with
      | .error e => .error e
      | .ok _ =>
        if delegator.hierarchy = "" then
          if self_id ≠ owner ∨ self_id ≠ issuer then
            .error (invalidRootError self_id owner issuer)
          else .ok delegator
        else
          match fuel with
          | 0 => .error "Recursion depth bound exhausted"
          | fuel' + 1 =>
            match M.decryptJwe delegator.hierarchy with
            | .error e => .error ("Failed to deserialize jws compact payload " ++ e)
            | .ok dc_string =>
              match M.parseDC dc_string with
              | .error e => .error ("Failed to deserialize PJVDelegationCredential " ++ e)
              | .ok parsed =>
                match pjvVerifyDelegationCredential M self_id now fuel' parsed with
                | .error e => .error e
                | .ok decrypted_delegator =>
                  match delegator.operations.find?
                      (fun op => !(decrypted_delegator.operations.contains op)) with
                  | some op =>
                    .error ("Operation " ++ op ++
                      " not included in the decrypted delegation credential")
                  | none =>
                    if delegator.iss ≠ decrypted_delegator.sub then
                      .error "Mismatch found in delegation credential: decrypted credential subject is different from the current issuer"
                    else .ok delegator

/-! ## Concrete instances used by the theorems below -/

/-- A directory publishing an accumulator entry for `d1` only. -/
def accDlt1 : String → Option DLTSimAccEntry :=
  fun s => if s = "d1" then some ⟨"pk", "sp"⟩ else none

/-- A directory publishing an accumulator entry for `d0` only. -/
def accDlt0 : String → Option DLTSimAccEntry :=
  fun s => if s = "d0" then some ⟨"pk", "sp"⟩ else none

/-- A directory publishing the same accumulator entry for every id. -/
def accDltAll : String → Option DLTSimAccEntry :=
  fun _ => some ⟨"pk", "sp"⟩

/-- A depth-1 presentation: `d0` issued to `d1` (the hierarchy entry has
id `d0` and delegatee `d1`), and `d1` issued the outer credential to `d2`;
the presentation issuer is `d1`. -/
def vpChain1 : VerifiablePresentation OurDelegationCredential :=
  ⟨["ctx"], ["VerifiablePresentation"], "vp1", "d1", "vf",
    ⟨"d2", "avOuter", "0", "10", ["p"], ["m1", "m2", "m3"], ["wp"],
      [⟨"d0", "d1", "0", "10", "avD0", ["n1", "n2", "n3"], ["vq"]⟩]⟩⟩

/-- An issuer-crypto instance: the hash-to-scalar map is injective on the
strings used here (taken as the identity), serialization and witnesses are
definite strings. -/
def idIssuerModel : IssuerModel :=
  { toScalar := fun s => s
    serializeAcc := fun _ => "acc"
    witnessOf := fun _ x => "w_" ++ x }

/-- A root-issued parent credential: expiry 5, empty hierarchy. -/
def parentRootVC : VerifiableCredential OurDelegationCredential :=
  ⟨["ctx"], ["OurDelegationCredential"], "cid0", "d0", "vf",
    ⟨"d1", "avP", "1", "5", ["p"], ["m1", "m2", "m3"], ["wp"], []⟩⟩

/-- A depth-1 parent credential whose hierarchy entry expires at 50 while
the parent itself expires at 60. -/
def parentChainVC : VerifiableCredential OurDelegationCredential :=
  ⟨["ctx"], ["OurDelegationCredential"], "cid1", "dP", "vf",
    ⟨"d1", "avP", "1", "60", ["p"], ["m1", "m2", "m3"], ["wp"],
      [⟨"d0", "dP", "0", "50", "av0", ["a1", "a2", "a3"], ["u1"]⟩]⟩⟩

/-- The credential issued from `parentChainVC` at time 10 with validity 90
(the reference result for the expiry-clamping theorems). -/
def issuedFromChainVC : VerifiableCredential OurDelegationCredential :=
  match issue_delegation_verifiable_credential idIssuerModel "d1" 10 ["ctx"] "cid2" "vf" "d2" 90
      ["p"] (some parentChainVC) with
  | .ok vc => vc
  | .error _ => ⟨[], [], "", "", "", ⟨"", "", "", "", [], [], [], []⟩⟩

/-- An Ed25519 OKP private JWK. -/
def jwkEd : Jwk :=
  ⟨"OKP", "Ed25519", some "x0", some "d0", fun _ => "rawsig"⟩

/-- A trivial presentation for the envelope theorems. -/
def vpTrivial : VerifiablePresentation OurDelegationCredential :=
  ⟨["ctx"], ["VerifiablePresentation"], "vp0", "d1", "vf",
    ⟨"d2", "av", "0", "10", ["p"], ["m1", "m2", "m3"], ["wp"], []⟩⟩

/-- A scheme-B verifier environment in which every signature verifies. -/
def pjvAcceptModel : PJVModel :=
  { verification_dlt := fun _ => some jwkEd
    serializeDelegator := fun _ => "serialized"
    decodeB64 := fun s => .ok s
    verifySig := fun _ _ _ => true
    decryptJwe := fun _ => .error "not decryptable"
    parseDC := fun _ => .error "not parseable" }

/-- A root scheme-B credential owned and issued by `d0`. -/
def pjvRootDC : PJVDelegationCredential :=
  ⟨⟨"d0", "d0", "d1", "0", "10", "uri", ["GET"], ""⟩, ⟨"sig"⟩⟩

/-- A credential with two permissions but a single outer witness: the
second removal index is out of bounds for the witness vector. -/
def dcShortWitnesses : OurDelegationCredential :=
  ⟨"d1", "av", "0", "10", ["a", "b"], ["m1", "m2", "m3"], ["w"], []⟩

/-- A well-formed credential for the retention witnesses. -/
def dcRetainGood : OurDelegationCredential :=
  ⟨"d1", "av", "0", "10", ["a", "b"], ["m1", "m2", "m3"], ["wa", "wb"],
    [⟨"d0", "d1", "0", "10", "av0", ["n1", "n2", "n3"], ["ua", "ub"]⟩]⟩

/-- A manager holding the single scalar `a`. -/
def amWithA : AccumulatorManager := ⟨["a"], ⟨["a"]⟩⟩

/-- The specification-side description of lock-step retention: keep a
witness exactly when the same-index permission is in `allowed`, preserving
order. -/
def keptWitnesses (perms allowed ws : List String) : List String :=
  (perms.zip ws).filterMap (fun pw => if allowed.contains pw.1 then some pw.2 else none)

/-- Replace a hierarchy entry witness vector by its lock-step retention. -/
def withKeptWitnesses (perms allowed : List String) (d : OurDelegator) : OurDelegator :=
  { d with permission_witnesses := keptWitnesses perms allowed d.permission_witnesses }

/-! # Theorems -/

/-! ## Claim C1 — parallel batch verification surfaces per-pair failures -/

/-- C1: the claim states that with `parallel = true` a failing pair aborts
the batch with the same error as in sequential mode.  The code instead
discards the joined worker results (`Ok(_) => {}` also matches a worker
that returned `Err`), so the one-pair batch below fails sequentially but
returns `Ok` in parallel mode. -/
theorem C1_parallel_discards_worker_errors :
    AccumulatorVerifier.verify_accumulator_witnesses rejectingModel ⟨"A", "pk", "sp"⟩
      ["w0"] ["e0"] true = .ok () ∧
    AccumulatorVerifier.verify_accumulator_witnesses rejectingModel ⟨"A", "pk", "sp"⟩
      ["w0"] ["e0"] false = .error "Could not verify membership for element e0" := by
  constructor
  · rfl
  · rfl

/-! ## Claim C2 — which directory entry the hierarchy walk looks up -/

/-- C2: the claim states that for each hierarchy entry `Dk` the verifier
looks up the accumulator entry published under `Dk.id`.  The code passes
`previous` — which is `Dk.delegatee_id` — as the issuer to
`verify_delegation`, so with the hierarchy entry of `vpChain1`
(`id = d0`, `delegatee = d1`) sequential verification succeeds although no
entry at all is published under `d0`, and fails to find `d1` when only
`d0` is published. -/
theorem C2_lookup_uses_delegatee_id :
    accDlt1 "d0" = none ∧
    verify_verifiable_presentation ⟨acceptingModel, accDlt1⟩ vpChain1 5 false = .ok () ∧
    verify_verifiable_presentation ⟨acceptingModel, accDlt0⟩ vpChain1 5 false =
      .error "Could not find issuer d1 in DLTSim" := by
  refine ⟨rfl, rfl, rfl⟩

/-! ## Claim C4 — the emitted JWS carries algorithm EdDSA -/

/-- C4: every compact JWS emitted by `to_signed_jwt` carries `alg = EdDSA`
in its protected header (josekit overwrites the header value `P256` with the
signer algorithm), and the signer is built from an Ed25519 OKP private
key. -/
theorem C4_signed_jwt_alg_is_eddsa
    (serializeVp : VerifiablePresentation OurDelegationCredential → String)
    (vp : VerifiablePresentation OurDelegationCredential) (private_key : Jwk) (jws : CompactJws)
    (h : vp.to_signed_jwt serializeVp private_key = .ok jws) :
    lookupClaim jws.header "alg" = some "EdDSA" ∧
    private_key.kty = "OKP" ∧ private_key.crv = "Ed25519" ∧ private_key.d ≠ none := by
  unfold VerifiablePresentation.to_signed_jwt at h
  split at h
  · exact Except.noConfusion h
  · rename_i signer heq
    unfold eddsaSignerFromJwk at heq
    split at heq
    · rename_i hk
      cases heq
      cases h
      exact ⟨rfl, hk.1, hk.2.1, hk.2.2⟩
    · exact Except.noConfusion heq

/-- Witness for C4 at a concrete signing call. -/
theorem C4_signed_jwt_alg_is_eddsa_witness :
    lookupClaim (CompactJws.header ⟨[("alg", "EdDSA")], "payload", "rawsig"⟩) "alg" =
      some "EdDSA" ∧
    jwkEd.kty = "OKP" ∧ jwkEd.crv = "Ed25519" ∧ jwkEd.d ≠ none :=
  C4_signed_jwt_alg_is_eddsa (fun _ => "payload") vpTrivial jwkEd
    ⟨[("alg", "EdDSA")], "payload", "rawsig"⟩ rfl

/-! ## Claim C5 — behaviour of the timing validator -/

/-- C5 counterexample: at `now = 7`, `iat = "10"`, `exp = "5"` the claim
says the call fails `Inverted` (`iat > exp`), but the cascade tests
`now < iat` first and returns the `NotYetValid` error, which is a
different error string. -/
theorem C5_counterexample_inverted_shadowed :
    verify_timings 7 "10" "5" = .error (notYetValidError 10) ∧
    notYetValidError 10 ≠ invertedError 10 5 := by
  constructor
  · rfl
  · decide

/-- C5 (amended): `verify_timings` fails with the respective parse error
when a timestamp does not parse as an unsigned 128-bit decimal; otherwise
the checks cascade — `NotYetValid` when `now < iat`, else `Expired` when
`now > exp` — success holds exactly when `iat ≤ now ≤ exp`, and the result
is always one of success, `NotYetValid` or `Expired` (the `Inverted`
branch is tested last and can never fire). -/
theorem C5_verify_timings_characterization (now : Nat) (iat exp : String) :
    (parse_u128 iat = none → verify_timings now iat exp = .error (iatParseError iat)) ∧
    (∀ i, parse_u128 iat = some i → parse_u128 exp = none →
      verify_timings now iat exp = .error (expParseError exp)) ∧
    (∀ i e, parse_u128 iat = some i → parse_u128 exp = some e →
      ((verify_timings now iat exp = .ok ()) ↔ (i ≤ now ∧ now ≤ e)) ∧
      (now < i → verify_timings now iat exp = .error (notYetValidError i)) ∧
      (i ≤ now → e < now → verify_timings now iat exp = .error (expiredError e)) ∧
      (verify_timings now iat exp = .ok () ∨
        verify_timings now iat exp = .error (notYetValidError i) ∨
        verify_timings now iat exp = .error (expiredError e))) := by
  refine ⟨?_, ?_, ?_⟩
  · intro h
    simp [verify_timings, h]
  · intro i hi he
    simp [verify_timings, hi, he]
  · intro i e hi he
    by_cases h1 : now < i
    · have hni : ¬ (i ≤ now ∧ now ≤ e) := by omega
      simp [verify_timings, hi, he, h1, hni]
    · by_cases h2 : e < now
      · have hni : ¬ (i ≤ now ∧ now ≤ e) := by omega
        have h1n : i ≤ now := by omega
        simp [verify_timings, hi, he, h1, h2, hni, h1n]
      · have h3 : ¬ e < i := by omega
        have hok : i ≤ now ∧ now ≤ e := by omega
        simp [verify_timings, hi, he, h1, h2, h3, hok]

/-- Witness for C5 at a concrete in-window input. -/
theorem C5_verify_timings_witness : verify_timings 5 "3" "7" = .ok () :=
  (((C5_verify_timings_characterization 5 "3" "7").2.2 3 7 rfl rfl).1).mpr (by decide)

/-! ## Claim C8 — the scheme-B root check -/

/-- C8: when the hierarchy string is empty, the credential verifies (and
returns its delegator as the parent) exactly when timings and signature
pass and the own id of the verifier equals both the owner and the issuer; when
timings and signature pass but the ids disagree, the result is the
`InvalidRoot` error; any successful result is the current delegator. -/
theorem C8_root_requires_owner_eq_issuer (M : PJVModel) (self_id : String) (now : Nat)
    (fuel : Nat) (dc : PJVDelegationCredential) (hroot : dc.delegator.hierarchy = "") :
    (pjvVerifyDelegationCredential M self_id now fuel dc = .ok dc.delegator ↔
      (verify_timings now dc.delegator.iat dc.delegator.exp = .ok () ∧
        pjvVerifySignature M dc.delegator dc.signature = .ok () ∧
        self_id = dc.delegator.owner ∧ self_id = dc.delegator.iss)) ∧
    (verify_timings now dc.delegator.iat dc.delegator.exp = .ok () →
      pjvVerifySignature M dc.delegator dc.signature = .ok () →
      ¬ (self_id = dc.delegator.owner ∧ self_id = dc.delegator.iss) →
      pjvVerifyDelegationCredential M self_id now fuel dc =
        .error (invalidRootError self_id dc.delegator.owner dc.delegator.iss)) ∧
    (∀ d, pjvVerifyDelegationCredential M self_id now fuel dc = .ok d → d = dc.delegator) := by
  unfold pjvVerifyDelegationCredential
  simp only [hroot, eq_self_iff_true, if_true]
  cases ht : verify_timings now dc.delegator.iat dc.delegator.exp with
  | error e => simp
  | ok u =>
    cases u
    cases hs : pjvVerifySignature M dc.delegator dc.signature with
    | error e => simp
    | ok v =>
      cases v
      by_cases hid : self_id ≠ dc.delegator.owner ∨ self_id ≠ dc.delegator.iss
      · have hne : ¬ (self_id = dc.delegator.owner ∧ self_id = dc.delegator.iss) := by
          rcases hid with h | h
          · exact fun hc => h hc.1
          · exact fun hc => h hc.2
        simp [hid, hne]
      · have heq : self_id = dc.delegator.owner ∧ self_id = dc.delegator.iss := by
          rw [not_or, not_not, not_not] at hid
          exact hid
        refine ⟨?_, ?_, ?_⟩
        · simp [hid, heq.1, heq.2]
        · intro _ _ hne
          exact absurd heq hne
        · intro d h
          simp [hid] at h
          exact h.symm

/-- Witness for C8: a root credential owned and issued by the verifier. -/
theorem C8_root_witness :
    pjvVerifyDelegationCredential pjvAcceptModel "d0" 5 0 pjvRootDC = .ok pjvRootDC.delegator :=
  ((C8_root_requires_owner_eq_issuer pjvAcceptModel "d0" 5 0 pjvRootDC rfl).1).mpr
    ⟨rfl, rfl, rfl, rfl⟩

/-! ## Lemmas on index-based removal -/

theorem vecRemove_cons_succ {α : Type} (x : α) (xs : List α) (i : Nat) :
    vecRemove (x :: xs) (i + 1) = (vecRemove xs i).map (fun ys => x :: ys) := by
  unfold vecRemove
  by_cases h : i < xs.length
  · have h1 : i + 1 < (x :: xs).length := by simp; omega
    simp [h, h1, List.eraseIdx, Except.map]
  · have h1 : ¬ i + 1 < (x :: xs).length := by simp; omega
    simp [h, h1, Except.map]

theorem removeAll_map_succ {α : Type} (idxs : List Nat) (x : α) (xs : List α) :
    removeAll (idxs.map (fun i => i + 1)) (x :: xs) =
      (removeAll idxs xs).map (fun ys => x :: ys) := by
  induction idxs generalizing xs with
  | nil => simp [removeAll, Except.map]
  | cons i rest ih =>
    simp only [List.map_cons, removeAll, vecRemove_cons_succ]
    cases h : vecRemove xs i with
    | error e => simp [Except.map]
    | ok ys => simp [Except.map, ih]

theorem removeAll_append {α : Type} (a b : List Nat) (xs : List α) :
    removeAll (a ++ b) xs =
      (match removeAll a xs with
       | .error e => .error e
       | .ok ys => removeAll b ys) := by
  induction a generalizing xs with
  | nil => simp [removeAll]
  | cons i rest ih =>
    simp only [List.cons_append, removeAll]
    cases h : vecRemove xs i with
    | error e => simp
    | ok ys => simp [ih]

theorem removableIndicesFrom_succ (allowed : List String) (l : List String) (i : Nat) :
    removableIndicesFrom allowed (i + 1) l =
      (removableIndicesFrom allowed i l).map (fun j => j + 1) := by
  induction l generalizing i with
  | nil => simp [removableIndicesFrom]
  | cons p rest ih =>
    by_cases hm : p ∈ allowed
    · simp [removableIndicesFrom, hm, ih]
    · simp [removableIndicesFrom, hm, ih]

theorem removeAll_kept (allowed : List String) (perms : List String) :
    ∀ ws : List String, ws.length = perms.length →
      removeAll (removableIndicesFrom allowed 0 perms).reverse ws =
        .ok (keptWitnesses perms allowed ws) := by
  induction perms with
  | nil =>
    intro ws hlen
    cases ws with
    | nil => simp [removableIndicesFrom, removeAll, keptWitnesses]
    | cons w qs => simp at hlen
  | cons p ps ih =>
    intro ws hlen
    cases ws with
    | nil => simp at hlen
    | cons w qs =>
      have hq : qs.length = ps.length := by simpa using hlen
      have hshift := removableIndicesFrom_succ allowed ps 0
      by_cases hm : p ∈ allowed
      · have : removableIndicesFrom allowed 0 (p :: ps) =
            (removableIndicesFrom allowed 0 ps).map (fun j => j + 1) := by
          simp [removableIndicesFrom, hm, hshift]
        rw [this]
        rw [← List.map_reverse]
        rw [removeAll_map_succ]
        rw [ih qs hq]
        simp [keptWitnesses, hm, Except.map]
      · have : removableIndicesFrom allowed 0 (p :: ps) =
            0 :: (removableIndicesFrom allowed 0 ps).map (fun j => j + 1) := by
          simp [removableIndicesFrom, hm, hshift]
        rw [this]
        rw [List.reverse_cons, ← List.map_reverse]
        rw [removeAll_append]
        rw [removeAll_map_succ]
        rw [ih qs hq]
        simp [keptWitnesses, hm, Except.map, removeAll, vecRemove]

theorem keptWitnesses_self (allowed : List String) (perms : List String) :
    keptWitnesses perms allowed perms = perms.filter (fun p => allowed.contains p) := by
  induction perms with
  | nil => simp [keptWitnesses]
  | cons p ps ih =>
    by_cases hm : p ∈ allowed
    · simpa [keptWitnesses, hm] using ih
    · simpa [keptWitnesses, hm] using ih

theorem length_keptWitnesses (allowed : List String) (perms : List String) :
    ∀ ws : List String, ws.length = perms.length →
      (keptWitnesses perms allowed ws).length =
        (perms.filter (fun p => allowed.contains p)).length := by
  induction perms with
  | nil => intro ws hlen; simp [keptWitnesses]
  | cons p ps ih =>
    intro ws hlen
    cases ws with
    | nil => simp at hlen
    | cons w qs =>
      have hq : qs.length = ps.length := by simpa using hlen
      by_cases hm : p ∈ allowed
      · simpa [keptWitnesses, hm] using ih qs hq
      · simpa [keptWitnesses, hm] using ih qs hq

theorem pruneHierarchy_ok (rev : List Nat) (f : OurDelegator → List String) :
    ∀ hier : List OurDelegator,
      (∀ d ∈ hier, removeAll rev d.permission_witnesses = .ok (f d)) →
      pruneHierarchy rev hier =
        .ok (hier.map (fun d => { d with permission_witnesses := f d })) := by
  intro hier
  induction hier with
  | nil => intro _; simp [pruneHierarchy]
  | cons d rest ih =>
    intro h
    have hd := h d (by simp)
    have hrest := ih (fun x hx => h x (by simp [hx]))
    simp [pruneHierarchy, hd, hrest]

theorem mem_removableIndicesFrom (allowed : List String) :
    ∀ (l : List String) (i j : Nat), j ∈ removableIndicesFrom allowed i l →
      i ≤ j ∧ j < i + l.length := by
  intro l
  induction l with
  | nil => intro i j h; simp [removableIndicesFrom] at h
  | cons p rest ih =>
    intro i j h
    rw [removableIndicesFrom] at h
    by_cases hm : p ∈ allowed
    · simp [hm] at h
      have := ih (i + 1) j h
      refine ⟨by omega, by simp only [List.length_cons]; omega⟩
    · simp [hm] at h
      rcases h with h0 | h1
      · subst h0
        exact ⟨le_refl j, by simp only [List.length_cons]; omega⟩
      · have := ih (i + 1) j h1
        refine ⟨by omega, by simp only [List.length_cons]; omega⟩

theorem removableIndicesFrom_pairwise (allowed : List String) :
    ∀ (l : List String) (i : Nat), List.Pairwise (· < ·) (removableIndicesFrom allowed i l) := by
  intro l
  induction l with
  | nil => intro i; simp [removableIndicesFrom]
  | cons p rest ih =>
    intro i
    rw [removableIndicesFrom]
    by_cases hm : p ∈ allowed
    · have hb : allowed.contains p = true := by simp [hm]
      rw [if_pos hb]
      exact ih (i + 1)
    · have hb : ¬ allowed.contains p = true := by simp [hm]
      rw [if_neg hb]
      refine List.Pairwise.cons ?_ (ih (i + 1))
      intro j hj
      have := (mem_removableIndicesFrom allowed rest (i + 1) j hj).1
      omega

theorem removeAll_ok_of_descending {α : Type} :
    ∀ (idxs : List Nat) (xs : List α), List.Pairwise (· > ·) idxs →
      (∀ i ∈ idxs, i < xs.length) → ∃ ys, removeAll idxs xs = .ok ys := by
  intro idxs
  induction idxs with
  | nil => intro xs _ _; exact ⟨xs, rfl⟩
  | cons i rest ih =>
    intro xs hp hb
    have hi : i < xs.length := hb i (by simp)
    have herase : (xs.eraseIdx i).length = xs.length - 1 := by
      rw [List.length_eraseIdx]
      simp [hi]
    have hb2 : ∀ j ∈ rest, j < (xs.eraseIdx i).length := by
      intro j hj
      have hji : j < i := (List.pairwise_cons.mp hp).1 j hj
      omega
    obtain ⟨ys, hys⟩ := ih (xs.eraseIdx i) (List.pairwise_cons.mp hp).2 hb2
    refine ⟨ys, ?_⟩
    simp [removeAll, vecRemove, hi, hys]

theorem pruneHierarchy_ok_of_ok (rev : List Nat) :
    ∀ hier : List OurDelegator,
      (∀ d ∈ hier, ∃ w, removeAll rev d.permission_witnesses = .ok w) →
      ∃ hs, pruneHierarchy rev hier = .ok hs := by
  intro hier
  induction hier with
  | nil => intro _; exact ⟨[], rfl⟩
  | cons d rest ih =>
    intro h
    obtain ⟨w, hw⟩ := h d (by simp)
    obtain ⟨hs, hhs⟩ := ih (fun x hx => h x (by simp [hx]))
    exact ⟨{ d with permission_witnesses := w } :: hs, by simp [pruneHierarchy, hw, hhs]⟩

/-! ## Claim C6 — lock-step retention -/

/-- C6: with witness vectors of the same length as the permissions at the
outer level and at every hierarchy entry, `retain_only` keeps exactly the
permissions in `allowed` (in order) and, in index lock-step, the outer witnesses
and those of every hierarchy entry; the removed indices are returned in
ascending order, and afterwards the witness count equals the permission
count everywhere. -/
theorem C6_retain_only_lockstep (dc : OurDelegationCredential) (allowed : List String)
    (_hsub : ∀ a ∈ allowed, a ∈ dc.permissions)
    (h1 : dc.permission_witnesses.length = dc.permissions.length)
    (h2 : ∀ d ∈ dc.hierarchy, d.permission_witnesses.length = dc.permissions.length) :
    ∃ dc2, dc.retain_only allowed =
        .ok (dc2, removableIndicesFrom allowed 0 dc.permissions) ∧
      List.Pairwise (· < ·) (removableIndicesFrom allowed 0 dc.permissions) ∧
      dc2.permissions = dc.permissions.filter (fun p => allowed.contains p) ∧
      dc2.permission_witnesses = keptWitnesses dc.permissions allowed dc.permission_witnesses ∧
      dc2.hierarchy = dc.hierarchy.map (withKeptWitnesses dc.permissions allowed) ∧
      dc2.permission_witnesses.length = dc2.permissions.length ∧
      (∀ d ∈ dc2.hierarchy, d.permission_witnesses.length = dc2.permissions.length) := by
  have hperm : removeAll (removableIndicesFrom allowed 0 dc.permissions).reverse dc.permissions =
      .ok (dc.permissions.filter (fun p => allowed.contains p)) := by
    have h := removeAll_kept allowed dc.permissions dc.permissions rfl
    rwa [keptWitnesses_self] at h
  have hpw := removeAll_kept allowed dc.permissions dc.permission_witnesses h1
  have hhier := pruneHierarchy_ok (removableIndicesFrom allowed 0 dc.permissions).reverse
    (fun d => keptWitnesses dc.permissions allowed d.permission_witnesses) dc.hierarchy
    (fun d hd => removeAll_kept allowed dc.permissions d.permission_witnesses (h2 d hd))
  refine ⟨{ dc with
      permissions := dc.permissions.filter (fun p => allowed.contains p),
      permission_witnesses := keptWitnesses dc.permissions allowed dc.permission_witnesses,
      hierarchy := dc.hierarchy.map (withKeptWitnesses dc.permissions allowed) }, ?_, ?_, rfl,
    rfl, rfl, ?_, ?_⟩
  · unfold OurDelegationCredential.retain_only
    simp only [hperm, hpw, hhier]
    rfl
  · exact removableIndicesFrom_pairwise allowed dc.permissions 0
  · exact length_keptWitnesses allowed dc.permissions dc.permission_witnesses h1
  · intro d hd
    rcases List.mem_map.mp hd with ⟨d0, hd0, rfl⟩
    exact length_keptWitnesses allowed dc.permissions d0.permission_witnesses (h2 d0 hd0)

/-- Witness for C6 on a two-permission credential with one hierarchy
entry, disclosing only the second permission. -/
theorem C6_retain_only_lockstep_witness :
    ∃ dc2, dcRetainGood.retain_only ["b"] =
        .ok (dc2, removableIndicesFrom ["b"] 0 dcRetainGood.permissions) ∧
      List.Pairwise (· < ·) (removableIndicesFrom ["b"] 0 dcRetainGood.permissions) ∧
      dc2.permissions = dcRetainGood.permissions.filter (fun p => List.contains ["b"] p) ∧
      dc2.permission_witnesses =
        keptWitnesses dcRetainGood.permissions ["b"] dcRetainGood.permission_witnesses ∧
      dc2.hierarchy = dcRetainGood.hierarchy.map
        (withKeptWitnesses dcRetainGood.permissions ["b"]) ∧
      dc2.permission_witnesses.length = dc2.permissions.length ∧
      (∀ d ∈ dc2.hierarchy, d.permission_witnesses.length = dc2.permissions.length) :=
  C6_retain_only_lockstep dcRetainGood ["b"] (by decide) (by decide) (by decide)

/-! ## Claim C10 — removal indices stay in bounds -/

/-- C10: the removal indices are computed from the permissions vector
alone, so whenever the outer witness vector and the witness vector of
every hierarchy entry are at least as long as the permissions, every embedded
`Vec::remove` is in bounds and `retain_only` cannot hit the panic branch;
the length precondition is needed — on a credential whose single outer
witness is shorter than its two permissions, the removal of index 1 falls
out of bounds. -/
theorem C10_retention_removals_inbounds :
    (∀ (dc : OurDelegationCredential) (allowed : List String),
        dc.permissions.length ≤ dc.permission_witnesses.length →
        (∀ d ∈ dc.hierarchy, dc.permissions.length ≤ d.permission_witnesses.length) →
        ∃ r, dc.retain_only allowed = .ok r) ∧
    dcShortWitnesses.retain_only ["a"] = .error "index out of bounds" := by
  constructor
  · intro dc allowed h1 h2
    have hdesc : List.Pairwise (· > ·) (removableIndicesFrom allowed 0 dc.permissions).reverse := by
      rw [List.pairwise_reverse]
      exact removableIndicesFrom_pairwise allowed dc.permissions 0
    have hboundP : ∀ i ∈ (removableIndicesFrom allowed 0 dc.permissions).reverse,
        i < dc.permissions.length := by
      intro i hi
      rw [List.mem_reverse] at hi
      have := mem_removableIndicesFrom allowed dc.permissions 0 i hi
      omega
    obtain ⟨ps, hps⟩ := removeAll_ok_of_descending
      (removableIndicesFrom allowed 0 dc.permissions).reverse dc.permissions hdesc hboundP
    obtain ⟨ws, hws⟩ := removeAll_ok_of_descending
      (removableIndicesFrom allowed 0 dc.permissions).reverse dc.permission_witnesses hdesc
      (fun i hi => lt_of_lt_of_le (hboundP i hi) h1)
    obtain ⟨hs, hhs⟩ := pruneHierarchy_ok_of_ok
      (removableIndicesFrom allowed 0 dc.permissions).reverse dc.hierarchy
      (fun d hd => removeAll_ok_of_descending
        (removableIndicesFrom allowed 0 dc.permissions).reverse d.permission_witnesses hdesc
        (fun i hi => lt_of_lt_of_le (hboundP i hi) (h2 d hd)))
    refine ⟨({ dc with permissions := ps, permission_witnesses := ws, hierarchy := hs },
      removableIndicesFrom allowed 0 dc.permissions), ?_⟩
    unfold OurDelegationCredential.retain_only
    simp only [hps, hws, hhs]
  · rfl

/-- Witness for C10 on the well-formed two-permission credential. -/
theorem C10_retention_removals_inbounds_witness :
    ∃ r, dcRetainGood.retain_only ["a"] = .ok r :=
  C10_retention_removals_inbounds.1 dcRetainGood ["a"] (by decide) (by decide)

/-! ## Claim C7 — batch add is atomic -/

/-- C7: if any element of the batch is already present in the state, the
call fails and returns the manager unchanged (neither the state multiset
nor the accumulator value moves); if none is present the call succeeds and
every element of the batch is present afterwards. -/
theorem C7_add_elements_atomic (am : AccumulatorManager) (xs : List String) :
    ((∃ x ∈ xs, am.state.has x = true) →
      (am.add_elements xs).1 = am ∧ ∃ msg, (am.add_elements xs).2 = .error msg) ∧
    ((∀ x ∈ xs, am.state.has x = false) →
      (am.add_elements xs).2 = .ok () ∧
      ∀ x ∈ xs, ((am.add_elements xs).1).state.has x = true) := by
  constructor
  · rintro ⟨x, hx, hhas⟩
    have hany : xs.any am.state.has = true := List.any_eq_true.mpr ⟨x, hx, hhas⟩
    unfold AccumulatorManager.add_elements
    rw [if_pos hany]
    exact ⟨rfl, "Error in adding batch elements: [element is already present]", rfl⟩
  · intro hall
    have hany : ¬ xs.any am.state.has = true := by
      rw [List.any_eq_true]
      rintro ⟨x, hx, hhas⟩
      rw [hall x hx] at hhas
      exact Bool.noConfusion hhas
    unfold AccumulatorManager.add_elements
    rw [if_neg hany]
    refine ⟨rfl, ?_⟩
    intro x hx
    simp only [InMemoryState.has]
    simp [hx]

/-- Witness for C7: adding the already-present scalar `a` fails and leaves
the manager unchanged. -/
theorem C7_add_elements_atomic_witness :
    (amWithA.add_elements ["a"]).1 = amWithA ∧
    ∃ msg, (amWithA.add_elements ["a"]).2 = .error msg :=
  (C7_add_elements_atomic amWithA ["a"]).1 ⟨"a", by decide, by decide⟩

/-! ## Claim C9 — the hierarchy walk -/

theorem walkHierarchy_ok_chainLinked (V : OurVerifierModel) (perms : List String) (now : Nat)
    (par : Bool) :
    ∀ (hs : List OurDelegator) (cur r : String),
      walkHierarchy V perms now par cur hs = .ok r → chainLinked cur hs = true := by
  intro hs
  induction hs with
  | nil =>
    intro cur r _
    rfl
  | cons d rest ih =>
    intro cur r h
    rw [walkHierarchy] at h
    by_cases hne : d.delegatee_id ≠ cur
    · rw [if_pos hne] at h
      exact Except.noConfusion h
    · rw [if_neg hne] at h
      have heq : d.delegatee_id = cur := not_not.mp hne
      cases hv : verify_delegation V d.asDelegation d.delegatee_id perms now par with
      | error e =>
        rw [hv] at h
        exact Except.noConfusion h
      | ok u =>
        rw [hv] at h
        simp only [] at h
        simp [chainLinked, heq, ih d.id r h]

theorem walkHierarchy_ok_each (V : OurVerifierModel) (perms : List String) (now : Nat)
    (par : Bool) :
    ∀ (hs : List OurDelegator) (cur r : String),
      walkHierarchy V perms now par cur hs = .ok r →
      ∀ d ∈ hs, verify_delegation V d.asDelegation d.delegatee_id perms now par = .ok () := by
  intro hs
  induction hs with
  | nil =>
    intro cur r _ d hd
    simp at hd
  | cons d0 rest ih =>
    intro cur r h d hd
    rw [walkHierarchy] at h
    by_cases hne : d0.delegatee_id ≠ cur
    · rw [if_pos hne] at h
      exact Except.noConfusion h
    · rw [if_neg hne] at h
      cases hv : verify_delegation V d0.asDelegation d0.delegatee_id perms now par with
      | error e =>
        rw [hv] at h
        exact Except.noConfusion h
      | ok u =>
        rw [hv] at h
        simp only [] at h
        rcases List.mem_cons.mp hd with h0 | h1
        · subst h0
          cases u
          exact hv
        · exact ih d0.id r h d h1

theorem walkHierarchy_head_mismatch (V : OurVerifierModel) (perms : List String) (now : Nat)
    (par : Bool) (d : OurDelegator) (cur : String) (rest : List OurDelegator)
    (hne : d.delegatee_id ≠ cur) :
    walkHierarchy V perms now par cur (d :: rest) =
      .error (chainBrokenError d.delegatee_id cur) := by
  rw [walkHierarchy]
  rw [if_pos hne]

/-- C9: if presentation verification succeeds, the reversed hierarchy
(immediate parent first) is chain-linked starting from the presentation
issuer — the delegatee of each entry equals the expected issuer, which
then becomes the id of that entry — every entry passed `verify_delegation`, and the
outermost credential itself was verified against the presentation issuer;
moreover if the immediate parent (the hierarchy tail) has a delegatee
different from the presentation issuer, verification fails with the
ChainBroken error. -/
theorem C9_walk_tail_to_head (V : OurVerifierModel)
    (vp : VerifiablePresentation OurDelegationCredential) (now : Nat) (par : Bool) :
    (verify_verifiable_presentation V vp now par = .ok () →
      chainLinked vp.issuer vp.credential.hierarchy.reverse = true ∧
      (∀ d ∈ vp.credential.hierarchy,
        verify_delegation V d.asDelegation d.delegatee_id vp.credential.permissions now par =
          .ok ()) ∧
      verify_delegation V vp.credential.asDelegation vp.issuer vp.credential.permissions now par =
        .ok ()) ∧
    (∀ (hs : List OurDelegator) (d : OurDelegator), vp.credential.hierarchy = hs ++ [d] →
      d.delegatee_id ≠ vp.issuer →
      verify_verifiable_presentation V vp now par =
        .error (chainBrokenError d.delegatee_id vp.issuer)) := by
  constructor
  · intro h
    simp only [verify_verifiable_presentation] at h
    cases hw : walkHierarchy V vp.credential.permissions now par vp.issuer
        vp.credential.hierarchy.reverse with
    | error e =>
      rw [hw] at h
      exact Except.noConfusion h
    | ok r =>
      rw [hw] at h
      simp only [] at h
      refine ⟨walkHierarchy_ok_chainLinked V vp.credential.permissions now par
        vp.credential.hierarchy.reverse vp.issuer r hw, ?_, h⟩
      intro d hd
      exact walkHierarchy_ok_each V vp.credential.permissions now par
        vp.credential.hierarchy.reverse vp.issuer r hw d (List.mem_reverse.mpr hd)
  · intro hs d hhier hne
    simp only [verify_verifiable_presentation]
    have hrev : vp.credential.hierarchy.reverse = d :: hs.reverse := by
      rw [hhier]
      simp
    rw [hrev, walkHierarchy_head_mismatch V vp.credential.permissions now par d vp.issuer
      hs.reverse hne]

/-- Witness for C9: a depth-1 chain that verifies under the accepting
crypto model with every directory entry published. -/
theorem C9_walk_tail_to_head_witness :
    chainLinked vpChain1.issuer vpChain1.credential.hierarchy.reverse = true ∧
    (∀ d ∈ vpChain1.credential.hierarchy,
      verify_delegation ⟨acceptingModel, accDltAll⟩ d.asDelegation d.delegatee_id
        vpChain1.credential.permissions 5 false = .ok ()) ∧
    verify_delegation ⟨acceptingModel, accDltAll⟩ vpChain1.credential.asDelegation vpChain1.issuer
      vpChain1.credential.permissions 5 false = .ok () :=
  (C9_walk_tail_to_head ⟨acceptingModel, accDltAll⟩ vpChain1 5 false).1 rfl

/-! ## Claim C3 — expiry clamping at issuance -/

theorem clampExpOverHierarchy_le :
    ∀ (hs : List OurDelegator) (e ne : Nat), clampExpOverHierarchy e hs = .ok ne → ne ≤ e := by
  intro hs
  induction hs with
  | nil =>
    intro e ne h
    rw [clampExpOverHierarchy] at h
    cases h
    exact le_refl e
  | cons d rest ih =>
    intro e ne h
    rw [clampExpOverHierarchy] at h
    cases hp : parse_u128 d.exp with
    | none =>
      rw [hp] at h
      exact Except.noConfusion h
    | some de =>
      rw [hp] at h
      simp only [] at h
      have := ih (if de < e then de else e) ne h
      by_cases hlt : de < e
      · rw [if_pos hlt] at this
        omega
      · rw [if_neg hlt] at this
        omega

theorem clampExpOverHierarchy_le_mem :
    ∀ (hs : List OurDelegator) (e ne : Nat), clampExpOverHierarchy e hs = .ok ne →
      ∀ d ∈ hs, ∀ de, parse_u128 d.exp = some de → ne ≤ de := by
  intro hs
  induction hs with
  | nil =>
    intro e ne _ d hd
    simp at hd
  | cons d0 rest ih =>
    intro e ne h d hd de hde
    rw [clampExpOverHierarchy] at h
    cases hp : parse_u128 d0.exp with
    | none =>
      rw [hp] at h
      exact Except.noConfusion h
    | some de0 =>
      rw [hp] at h
      simp only [] at h
      rcases List.mem_cons.mp hd with h0 | h1
      · subst h0
        rw [hp] at hde
        cases hde
        have := clampExpOverHierarchy_le rest (if de < e then de else e) ne h
        by_cases hlt : de < e
        · rw [if_pos hlt] at this
          omega
        · rw [if_neg hlt] at this
          omega
      · exact ih (if de0 < e then de0 else e) ne h d h1 de hde

/-- A successful issuance with a parent carries `exp = toString ne` where
`ne` is the result of clamping `now + validity` over the parent hierarchy
(the own outer `exp` of the parent never enters the computation). -/
theorem issue_with_parent_exp (M : IssuerModel) (self_id : String) (now_ns : Nat)
    (context : List String) (credential_id valid_from delegatee_id : String)
    (validity_period_ns : Nat) (permissions : List String)
    (pvc vc : VerifiableCredential OurDelegationCredential)
    (h : issue_delegation_verifiable_credential M self_id now_ns context credential_id valid_from
      delegatee_id validity_period_ns permissions (some pvc) = .ok vc) :
    ∃ ne, clampExpOverHierarchy (now_ns + validity_period_ns) pvc.credential.hierarchy = .ok ne ∧
      vc.credential.exp = toString ne := by
  unfold issue_delegation_verifiable_credential at h
  repeat' (first | split at h | simp_all)
  subst_vars
  rfl

/-- C3 counterexample: a parent issued by the root (empty hierarchy) with
outer expiry 5; issuing from it at time 10 with validity 90 succeeds and
yields expiry 100, which exceeds the own expiry 5 of the parent — so
`exp ≤ min(parent.exp, parent.hierarchy[*].exp)` fails. -/
theorem C3_counterexample_parent_exp_ignored :
    (issue_delegation_verifiable_credential idIssuerModel "d1" 10 ["ctx"] "cid2" "vf" "d2" 90
        ["p"] (some parentRootVC)).map (fun vc => vc.credential.exp) = .ok "100" ∧
    parentRootVC.credential.exp = "5" ∧
    parse_u128 "100" = some 100 ∧ parse_u128 "5" = some 5 ∧ ¬ (100 ≤ 5) := by
  refine ⟨rfl, rfl, rfl, rfl, by omega⟩

/-- C3 (amended): for every A-DC successfully issued with a parent, the
new expiry is the decimal of a value `ne` with `ne ≤ now + validity` and
`ne` no later than the expiry of every entry of the parent hierarchy;
no clamping against the own outer expiry of the parent is performed. -/
theorem C3_exp_clamped_over_parent_hierarchy (M : IssuerModel) (self_id : String) (now_ns : Nat)
    (context : List String) (credential_id valid_from delegatee_id : String)
    (validity_period_ns : Nat) (permissions : List String)
    (pvc vc : VerifiableCredential OurDelegationCredential)
    (h : issue_delegation_verifiable_credential M self_id now_ns context credential_id valid_from
      delegatee_id validity_period_ns permissions (some pvc) = .ok vc) :
    ∃ ne, vc.credential.exp = toString ne ∧ ne ≤ now_ns + validity_period_ns ∧
      ∀ d ∈ pvc.credential.hierarchy, ∀ de, parse_u128 d.exp = some de → ne ≤ de := by
  obtain ⟨ne, hclamp, hexp⟩ := issue_with_parent_exp M self_id now_ns context credential_id
    valid_from delegatee_id validity_period_ns permissions pvc vc h
  exact ⟨ne, hexp,
    clampExpOverHierarchy_le pvc.credential.hierarchy (now_ns + validity_period_ns) ne hclamp,
    clampExpOverHierarchy_le_mem pvc.credential.hierarchy (now_ns + validity_period_ns) ne hclamp⟩

/-- Witness for C3 (amended): issuing from the depth-1 parent clamps the
expiry to 50, the expiry of the hierarchy entry. -/
theorem C3_exp_clamped_witness :
    ∃ ne, issuedFromChainVC.credential.exp = toString ne ∧ ne ≤ 10 + 90 ∧
      ∀ d ∈ parentChainVC.credential.hierarchy, ∀ de, parse_u128 d.exp = some de → ne ≤ de :=
  C3_exp_clamped_over_parent_hierarchy idIssuerModel "d1" 10 ["ctx"] "cid2" "vf" "d2" 90 ["p"]
    parentChainVC issuedFromChainVC rfl

end Delegation
